import Mathlib

/-!
Verification of the `jovialen/brainfuck` interpreter.

The development shallowly embeds the two core components of the repository:

* `brainfuck_lexer/src/lexer.rs` — `lex`, `tokenize_block`, `optimize_block`
  (analysis: whitespace filtering, run-length coalescing, recursive-descent
  parsing of loops, pruning of empty loops, idiom rewriting), built with the
  `precompiled_patterns` feature on, `debug_token` off, and strict mode
  (no `comments` feature), matching the spec's stated defaults.
* `src/interpreter.rs` — `interpret_block` over a 30000-cell byte tape.

Machine integers are modelled as `Nat` with explicit reductions:
`u8` values are taken `% 256`, `u32` run-length counts `% 2^32`, and `usize`
pointer arithmetic `% 2^64` (`wrapping_add`/`wrapping_sub` wrap there before
any `% memory.len()` the source applies).  Fallible code returns `Except`;
the interpreter additionally takes a fuel parameter (`none` = fuel exhausted)
because Brainfuck loops need not terminate.

Rust's `char::is_whitespace` is modelled with Lean's ASCII
`Char.isWhitespace`; no claim distinguishes non-ASCII whitespace.
-/

/-- The error type `LexerError` from `brainfuck_lexer/src/error.rs`. -/
inductive LexerError where
  | UnexpectedEOF : LexerError
  | UnclosedBlock : LexerError
  | SyntaxError : Char → LexerError
deriving DecidableEq, Repr

/-- Pre-compiled patterns (`PreCompiledPattern` in `lexer.rs`):
`SetToZero` and `Multiply { dest_offset, factor }`. -/
inductive PreCompiledPattern where
  | SetToZero : PreCompiledPattern
  | Multiply : Int → Nat → PreCompiledPattern
deriving DecidableEq, Repr

/-- `Token` from `lexer.rs`.  `Increment`/`Decrement` carry a `u8` count,
`Next`/`Prev` a `usize` count, `Closure` a nested block, `Pattern` a
pre-compiled pattern. -/
inductive Token where
  | Increment : Nat → Token
  | Decrement : Nat → Token
  | Next : Nat → Token
  | Prev : Nat → Token
  | Print : Token
  | Input : Token
  | Closure : List Token → Token
  | Pattern : PreCompiledPattern → Token
deriving Repr

/-- `2 ^ 32`, the modulus of the `u32` run-length counters built by
`coalesce`. -/
def U32 : Nat := 4294967296

/-- The four source symbols whose runs are coalesced in `lex`
(`TOKEN_INCREMENT`, `TOKEN_DECREMENT`, `TOKEN_NEXT`, `TOKEN_PREV`). -/
def repeatable (c : Char) : Bool :=
  c = '+' || c = '-' || c = '>' || c = '<'

/-- The accumulator loop of `itertools`' `coalesce`: `acc` is the pending
item; each further item either merges into it (identical value/move symbol,
`u32` counts added with wraparound at `2 ^ 32`) or flushes it. -/
def coalesceAux (acc : Char × Nat) : List (Char × Nat) → List (Char × Nat)
  | [] => [acc]
  | (d, m) :: rest =>
    if acc.1 = d && repeatable acc.1 then
      coalesceAux (acc.1, (acc.2 + m) % U32) rest
    else
      acc :: coalesceAux (d, m) rest

/-- The `coalesce` step of `lex`: adjacent identical value/move symbols are
merged, accumulating their `u32` counts; all other adjacent pairs are left
as they are. -/
def coalesce : List (Char × Nat) → List (Char × Nat)
  | [] => []
  | x :: rest => coalesceAux x rest

/-- One non-bracket token of `tokenize_block`'s `match`: the value/move
symbols carry their coalesced count (`as u8` = `% 256` for values, `as
usize` for moves, already below `2 ^ 32` ≤ `usize::MAX`), `.` and `,` are
I/O.  Returns `none` on an unrecognized character (strict mode:
`SyntaxError`). -/
def charToken (ch : Char) (count : Nat) : Option Token :=
  if ch = '+' then some (Token.Increment (count % 256))
  else if ch = '-' then some (Token.Decrement (count % 256))
  else if ch = '>' then some (Token.Next count)
  else if ch = '<' then some (Token.Prev count)
  else if ch = '.' then some Token.Print
  else if ch = ',' then some Token.Input
  else none

/-- `tokenize_block` from `lexer.rs`: recursive-descent tokenization of a
coalesced symbol stream.  `[` opens a nested recursive call, `]` closes the
current block when `is_closure` (it is a `SyntaxError` at top level), and
running out of input inside a closure is `UnclosedBlock`.  The Rust function
consumes a shared mutable iterator; here the unconsumed suffix is returned
alongside the block, with a length bound justifying termination. -/
def tokenize_block (l : List (Char × Nat)) ( is_closure : Bool) :
    Except LexerError (List Token × { r : List (Char × Nat) // r.length ≤ l.length }) :=
  match l with
  | [] =>
    if is_closure then .error .UnclosedBlock
    else .ok ([], ⟨[], by simp⟩)
  | (ch, count) :: rest =>
    if ch = ']' then
      if is_closure then .ok ([], ⟨rest, by simp⟩)
      else .error (.SyntaxError ch)
    else if ch = '[' then
      match tokenize_block rest true with
      | .error e => .error e
      | .ok (inner, ⟨rest1, h1⟩) =>
        match tokenize_block rest1 is_closure with
        | .error e => .error e
        | .ok (blk, ⟨rest2, h2⟩) =>
          .ok (Token.Closure inner :: blk, ⟨rest2, by simp; omega⟩)
    else
      match charToken ch count with
      | some t =>
        match tokenize_block rest is_closure with
        | .error e => .error e
        | .ok (blk, ⟨rest', h'⟩) => .ok (t :: blk, ⟨rest', by simp; omega⟩)
      | none => .error (.SyntaxError ch)
termination_by l.length
decreasing_by all_goals (simp <;> omega)

/-- The final `map` of `optimize_block`: rewrite a `Closure` whose body has
one of the five recognized shapes into a pre-compiled pattern.  The Rust
match guards `offset == rev_offset` fall through to the catch-all
`Token::Closure(block)` arm when they fail; no two guarded arms overlap, so
an `if`-`else` per shape is equivalent. -/
def patternRewrite (t : Token) : Token :=
  match t with
  | Token.Closure b =>
    match b with
    | [Token.Decrement 1] => Token.Pattern PreCompiledPattern.SetToZero
    | [Token.Decrement 1, Token.Next o, Token.Increment f, Token.Prev ro] =>
      if o = ro then Token.Pattern (PreCompiledPattern.Multiply (Int.ofNat o) f)
      else Token.Closure b
    | [Token.Decrement 1, Token.Prev o, Token.Increment f, Token.Next ro] =>
      if o = ro then Token.Pattern (PreCompiledPattern.Multiply (-(Int.ofNat o)) f)
      else Token.Closure b
    | [Token.Next o, Token.Increment f, Token.Prev ro, Token.Decrement 1] =>
      if o = ro then Token.Pattern (PreCompiledPattern.Multiply (Int.ofNat o) f)
      else Token.Closure b
    | [Token.Prev o, Token.Increment f, Token.Next ro, Token.Decrement 1] =>
      if o = ro then Token.Pattern (PreCompiledPattern.Multiply (-(Int.ofNat o)) f)
      else Token.Closure b
    | _ => Token.Closure b
  | t => t

/-- `optimize_block` from `lexer.rs`.  The Rust body is three element-wise
passes over the block — optimize closure bodies recursively, drop closures
whose (optimized) body is empty, rewrite recognized closure shapes to
patterns — fused here into one recursion over the list. -/
def optimize_block (block : List Token) : List Token :=
  match block with
  | [] => []
  | Token.Closure b :: rest =>
    let ob := optimize_block b
    if ob.isEmpty then optimize_block rest
    else patternRewrite (Token.Closure ob) :: optimize_block rest
  | t :: rest => t :: optimize_block rest

/-- `lex` from `lexer.rs`: filter out whitespace, pair every character with
count 1, coalesce runs of value/move symbols, tokenize, optimize. -/
def lex (src : List Char) : Except LexerError (List Token) :=
  let slice := coalesce ((src.filter (fun ch => !ch.isWhitespace)).map (fun c => (c, 1)))
  match tokenize_block slice false with
  | .error e => .error e
  | .ok (blk, _) => .ok (optimize_block blk)

/-- Helper: `lex` expressed through an already-computed coalesced slice. -/
theorem lex_eq_of_slice (s : List Char) (l : List (Char × Nat))
    (h : coalesce ((s.filter (fun ch => !ch.isWhitespace)).map (fun c => (c, 1))) = l) :
    lex s = match tokenize_block l false with
      | .error e => .error e
      | .ok (blk, _) => .ok (optimize_block blk) := by
  unfold lex
  rw [h]

/-- The runtime error of `interpret_block` (`BrainfuckError::IOError` in
`src/error.rs`): an I/O failure while reading input or writing output. -/
inductive RtError where
  | IOError : RtError
deriving DecidableEq, Repr

/-- One element of the modelled input stream: a successfully read byte, or a
read failure (`std::io::Read` can fail).  An exhausted stream is the empty
list. -/
inductive InByte where
  | ok : Nat → InByte
  | err : InByte
deriving DecidableEq, Repr

/-- Tape length: `HEAP_SIZE` in `interpreter.rs`. -/
def HEAP_SIZE : Nat := 30000

/-- `2 ^ 64`, the modulus of `usize` arithmetic (`wrapping_add` /
`wrapping_sub` in `interpret_block`). -/
def USIZE : Nat := 18446744073709551616

/-- Pointwise update of the tape function (`memory[i] = v`). -/
def upd (m : Nat → Nat) (i v : Nat) : Nat → Nat :=
  fun j => if j = i then v else m j

/-- The bytes `write!(out, "{}", b as char)` produces for a cell value
`b < 256`: the UTF-8 encoding of the code point `b` — one byte below 128,
two bytes (`0xC2`/`0xC3` then a continuation byte) for 128–255. -/
def utf8Write (b : Nat) : List Nat :=
  if b < 128 then [b] else [192 + b / 64, 128 + b % 64]

/-- The interpreter state: the `memory` tape and `ptr` of `interpret_block`,
plus the injectable channels — remaining input stream `inp`, an output sink
where write number `n` succeeds iff `outOk n`, the count `writes` of write
calls made so far, and the bytes `out` successfully written. -/
structure State where
  memory : Nat → Nat
  ptr : Nat
  inp : List InByte
  outOk : Nat → Bool
  writes : Nat
  out : List Nat

/-- `interpret_block` from `interpreter.rs`, with a fuel parameter (`none`
means fuel ran out; the Rust loop `while memory[ptr] != 0` need not
terminate).  One unit of fuel is spent per processed token and per loop
re-entry.  Operations follow the source exactly:

* `Increment`/`Decrement`: `u8` wrapping add/sub on the current cell;
* `Next`/`Prev`: `usize` wrapping add/sub on the pointer, then
  `% memory.len()` — the `usize` wrap at `2 ^ 64` happens first;
* `Print`: one write of the UTF-8 encoding of the cell (fails if the sink
  fails this write); `Input`: one byte read, an exhausted stream gives 0
  (`read_u8`), a failing read aborts;
* `Closure`: if the cell is nonzero, run the body, then re-enter the loop;
* `Pattern`: `SetToZero` clears the cell; `Multiply` computes the
  destination index with `usize` wrapping arithmetic `% memory.len()`,
  computes the product first, adds it to the destination cell, then zeroes
  the current cell. -/
def interpret_block : Nat → List Token → State → Option (Except RtError State)
  | 0, _, _ => none
  | _ + 1, [], st => some (.ok st)
  | fuel + 1, t :: rest, st =>
    let step : Option (Except RtError State) :=
      match t with
      | .Increment x =>
        some (.ok { st with memory := upd st.memory st.ptr ((st.memory st.ptr + x % 256) % 256) })
      | .Decrement x =>
        some (.ok { st with memory := upd st.memory st.ptr ((st.memory st.ptr + (256 - x % 256)) % 256) })
      | .Next count =>
        some (.ok { st with ptr := (st.ptr + count % USIZE) % USIZE % HEAP_SIZE })
      | .Prev count =>
        some (.ok { st with ptr := (st.ptr + (USIZE - count % USIZE)) % USIZE % HEAP_SIZE })
      | .Print =>
        if st.outOk st.writes then
          some (.ok { st with out := st.out ++ utf8Write (st.memory st.ptr),
                              writes := st.writes + 1 })
        else some (.error .IOError)
      | .Input =>
        match st.inp with
        | [] => some (.ok { st with memory := upd st.memory st.ptr 0 })
        | .ok b :: r => some (.ok { st with memory := upd st.memory st.ptr (b % 256), inp := r })
        | .err :: _ => some (.error .IOError)
      | .Closure b =>
        if st.memory st.ptr = 0 then some (.ok st)
        else
          match interpret_block fuel b st with
          | none => none
          | some (.error e) => some (.error e)
          | some (.ok st') => interpret_block fuel [Token.Closure b] st'
      | .Pattern .SetToZero =>
        some (.ok { st with memory := upd st.memory st.ptr 0 })
      | .Pattern (.Multiply off factor) =>
        let dest := (if 0 < off then (st.ptr + off.toNat % USIZE) % USIZE
                     else (st.ptr + (USIZE - off.natAbs % USIZE)) % USIZE) % HEAP_SIZE
        let mulRes := st.memory st.ptr * (factor % 256) % 256
        let m1 := upd st.memory dest ((st.memory dest + mulRes) % 256)
        some (.ok { st with memory := upd m1 st.ptr 0 })
    match step with
    | none => none
    | some (.error e) => some (.error e)
    | some (.ok st') => interpret_block fuel rest st'

/-- An initial state as built by `interpret`: zeroed 30000-cell tape,
pointer 0, the given input stream, and an output sink that succeeds on
every write. -/
def mkState (inp : List InByte) : State :=
  { memory := fun _ => 0, ptr := 0, inp := inp,
    outOk := fun _ => true, writes := 0, out := [] }

/-- The tape cell `i` of a successfully finished run, `none` otherwise. -/
def finalMem (r : Option (Except RtError State)) (i : Nat) : Option Nat :=
  match r with
  | some (.ok st) => some (st.memory i)
  | _ => none

/-- The pointer of a successfully finished run, `none` otherwise. -/
def finalPtr (r : Option (Except RtError State)) : Option Nat :=
  match r with
  | some (.ok st) => some st.ptr
  | _ => none

/-- The written bytes of a successfully finished run, `none` otherwise. -/
def finalOut (r : Option (Except RtError State)) : Option (List Nat) :=
  match r with
  | some (.ok st) => some st.out
  | _ => none

/-- Analyzing and evaluating a source one symbol at a time: each character
is passed through `lex` on its own and the one-token result is interpreted
before moving to the next character, threading the machine state. -/
def lexEvalEach (fuel : Nat) : List Char → State → Option (Except RtError State)
  | [], st => some (.ok st)
  | c :: rest, st =>
    match lex [c] with
    | .error _ => none
    | .ok b =>
      match interpret_block fuel b st with
      | none => none
      | some (.error e) => some (.error e)
      | some (.ok st') => lexEvalEach fuel rest st'

/-- A machine state whose every tape cell holds `v` (used to study a single
operation on a cell of value `v`), with perfect channels. -/
def cellState (v : Nat) : State :=
  { mkState [] with memory := fun _ => v }

/-- A machine state for the transfer example `cell0=5, cell1=3`. -/
def st53 : State :=
  { mkState [] with memory := fun i => if i = 0 then 5 else if i = 1 then 3 else 0 }

/-- C1. The claim says the pointer updates modulo the tape length 30000 and
that `MoveBackward(1)` from index 0 followed by `MoveForward(1)` returns to
index 0.  The code computes `ptr.wrapping_sub(count) % memory.len()`, which
wraps at `2 ^ 64` first: `2 ^ 64 % 30000 = 21616`, so `Prev 1` from 0 lands
on 21615 and the following `Next 1` on 21616, not 0.  The forward half of
the claim does hold: `Next 1` from 29999 lands on 0. -/
theorem c1_prev_wrap_divergence :
    finalPtr (interpret_block 2 [Token.Prev 1] (mkState [])) = some 21615 ∧
    finalPtr (interpret_block 3 [Token.Prev 1, Token.Next 1] (mkState [])) = some 21616 ∧
    (21616 : Nat) ≠ 0 ∧
    finalPtr (interpret_block 2 [Token.Next 1] { mkState [] with ptr := 29999 }) = some 0 :=
  ⟨rfl, rfl, by decide, rfl⟩

/-- C2 counterexample. The claim says `Output` writes exactly one byte equal
to the cell's raw value, for every cell value 0..255.  For cell value 128
the code writes `(128 as char)` with `write!`, i.e. the two-byte UTF-8
encoding `[194, 128]` of U+0080 — two bytes, not `[128]`. -/
theorem c2_output_counterexample :
    finalMem (interpret_block 3 [Token.Increment 128, Token.Print] (mkState [])) 0 = some 128 ∧
    finalOut (interpret_block 3 [Token.Increment 128, Token.Print] (mkState [])) = some [194, 128] ∧
    [194, 128] ≠ [(128 : Nat)] :=
  ⟨rfl, rfl, by decide⟩

/-- C2 amended. `Output` writes the UTF-8 encoding of the cell value read
as a Unicode code point: for cell values 0..127 exactly one byte equal to
the raw value; for 128..255 two bytes, so the output is never the single
raw byte in that range. -/
theorem c2_output_amended (v : Nat) (hv : v < 256) :
    (v < 128 → finalOut (interpret_block 2 [Token.Print] (cellState v)) = some [v]) ∧
    (128 ≤ v →
      Option.map List.length (finalOut (interpret_block 2 [Token.Print] (cellState v))) = some 2 ∧
      finalOut (interpret_block 2 [Token.Print] (cellState v)) ≠ some [v]) := by
  have hrun : finalOut (interpret_block 2 [Token.Print] (cellState v)) = some (utf8Write v) := by
    simp [interpret_block, cellState, mkState, finalOut]
  constructor
  · intro h
    rw [hrun]
    simp [utf8Write, h]
  · intro h
    rw [hrun]
    simp [utf8Write, Nat.not_lt_of_le h]

/-- Witness for C2 amended at the concrete cell value 200. -/
theorem c2_output_amended_witness :
    (200 : Nat) < 256 ∧
    (128 ≤ 200 →
      Option.map List.length (finalOut (interpret_block 2 [Token.Print] (cellState 200))) = some 2 ∧
      finalOut (interpret_block 2 [Token.Print] (cellState 200)) ≠ some [200]) :=
  ⟨by decide, (c2_output_amended 200 (by decide)).2⟩

/-- C5. The transfer loop `[->+<]` is rewritten to `Multiply { dest_offset:
1, factor: 1 }` and, run on `cell0=5, cell1=3`, yields `cell0=0, cell1=8` —
that much of the claim holds.  But the claim also says the destination cell
is `(pointer + offset) mod 30000` for every offset; for the mirrored loop
`[-<+>]` (offset −1) at pointer 0 the code computes
`ptr.wrapping_sub(1) % 30000 = 21615`, not 29999: running `+[-<+>]` puts
the transferred value in cell 21615 while the claim requires cell 29999. -/
theorem c5_transfer_multiply_divergence :
    lex ['[', '-', '>', '+', '<', ']'] =
      Except.ok [Token.Pattern (PreCompiledPattern.Multiply 1 1)] ∧
    finalMem (interpret_block 2 [Token.Pattern (PreCompiledPattern.Multiply 1 1)] st53) 0 = some 0 ∧
    finalMem (interpret_block 2 [Token.Pattern (PreCompiledPattern.Multiply 1 1)] st53) 1 = some 8 ∧
    lex ['+', '[', '-', '<', '+', '>', ']'] =
      Except.ok [Token.Increment 1, Token.Pattern (PreCompiledPattern.Multiply (-1) 1)] ∧
    finalMem (interpret_block 3
      [Token.Increment 1, Token.Pattern (PreCompiledPattern.Multiply (-1) 1)] (mkState []))
      21615 = some 1 ∧
    finalMem (interpret_block 3
      [Token.Increment 1, Token.Pattern (PreCompiledPattern.Multiply (-1) 1)] (mkState []))
      29999 = some 0 := by
  refine ⟨?_, rfl, rfl, ?_, rfl, rfl⟩
  · rw [lex_eq_of_slice _
      [('[', 1), ('-', 1), ('>', 1), ('+', 1), ('<', 1), (']', 1)] (by decide)]
    simp [tokenize_block, charToken, optimize_block, patternRewrite]
  · rw [lex_eq_of_slice _
      [('+', 1), ('[', 1), ('-', 1), ('<', 1), ('+', 1), ('>', 1), (']', 1)] (by decide)]
    simp [tokenize_block, charToken, optimize_block, patternRewrite]

/-- C6 counterexample. The claim says an I/O failure on the output sink is
the only source of evaluator failure.  `mkState [InByte.err]` has an output
sink that succeeds on every write, yet `InputByte` hits a failing read
(`read_u8` propagates input errors) and evaluation fails. -/
theorem c6_input_failure_counterexample :
    interpret_block 1 [Token.Input] (mkState [InByte.err]) =
      some (Except.error RtError.IOError) := by
  simp [interpret_block, mkState]

/-- C7. End-of-input is not an error: `,.` on the single input byte 65
(`A`) writes exactly `[65]` and succeeds, and on an empty input stream it
writes exactly the single 0 byte and succeeds (`finalOut = some _`
certifies success). -/
theorem c7_end_of_input :
    lex [',', '.'] = Except.ok [Token.Input, Token.Print] ∧
    finalOut (interpret_block 3 [Token.Input, Token.Print] (mkState [InByte.ok 65])) =
      some [65] ∧
    finalOut (interpret_block 3 [Token.Input, Token.Print] (mkState [])) = some [0] := by
  refine ⟨?_, rfl, rfl⟩
  rw [lex_eq_of_slice _ [(',', 1), ('.', 1)] (by decide)]
  simp [tokenize_block, charToken, optimize_block]


/-- A run of `m` further copies of a repeatable symbol merges into the
accumulator, while the count stays below `2 ^ 32`. -/
theorem coalesceAux_replicate (c : Char) (hc : repeatable c = true) :
    ∀ (m k : Nat), k + m < U32 → ∀ rest,
      coalesceAux (c, k) (List.replicate m (c, 1) ++ rest) = coalesceAux (c, k + m) rest := by
  intro m
  induction m with
  | zero => intro k _ rest; simp
  | succ m ih =>
    intro k hk rest
    rw [List.replicate_succ, List.cons_append]
    have hstep : coalesceAux (c, k) ((c, 1) :: (List.replicate m (c, 1) ++ rest)) =
        coalesceAux (c, (k + 1) % U32) (List.replicate m (c, 1) ++ rest) := by
      rw [coalesceAux]
      simp [hc]
    rw [hstep, Nat.mod_eq_of_lt (show k + 1 < U32 by omega),
      ih (k + 1) (by omega) rest]
    congr 2
    omega

/-- Analysis of a run of `n` plus signs, `1 ≤ n < 2 ^ 32`: a single
`Increment` token carrying `n mod 256`. -/
theorem lex_replicate_plus (n : Nat) (h1 : 1 ≤ n) (h2 : n < U32) :
    lex (List.replicate n '+') = Except.ok [Token.Increment (n % 256)] := by
  obtain ⟨m, rfl⟩ : ∃ m, n = m + 1 := ⟨n - 1, by omega⟩
  have hfilter : (List.replicate (m + 1) '+').filter (fun ch => !ch.isWhitespace) =
      List.replicate (m + 1) '+' := by
    rw [List.filter_eq_self]
    intro a ha
    rw [List.eq_of_mem_replicate ha]
    decide
  have hslice : coalesce (((List.replicate (m + 1) '+').filter
      (fun ch => !ch.isWhitespace)).map (fun c => (c, 1))) = [('+', m + 1)] := by
    rw [hfilter, List.map_replicate, List.replicate_succ]
    show coalesce (('+', 1) :: List.replicate m ('+', 1)) = _
    rw [coalesce]
    have h := coalesceAux_replicate '+' (by decide) m 1 (by omega) []
    rw [List.append_nil] at h
    rw [h, coalesceAux]
    congr 2
    omega
  rw [lex_eq_of_slice _ [('+', m + 1)] hslice]
  simp [tokenize_block, charToken, optimize_block]

/-- C4. Coalesced value counts are stored modulo 256: a run of 256 `+`
symbols analyzes to `Increment 0`, whose evaluation is the identity on
the machine state (for a well-formed byte cell); a run of 257 `+` symbols
analyzes to exactly the same program as a single `+`. -/
theorem c4_coalesced_count_mod_256 :
    lex (List.replicate 256 '+') = Except.ok [Token.Increment 0] ∧
    (∀ st : State, st.memory st.ptr < 256 →
      interpret_block 2 [Token.Increment 0] st = some (Except.ok st)) ∧
    lex (List.replicate 257 '+') = lex ['+'] := by
  refine ⟨?_, ?_, ?_⟩
  · rw [lex_replicate_plus 256 (by omega) (by decide)]
  · intro st h
    have hmem : upd st.memory st.ptr (st.memory st.ptr % 256) = st.memory := by
      funext j
      simp only [upd]
      split
      · rename_i hj; rw [hj, Nat.mod_eq_of_lt h]
      · rfl
    simp [interpret_block, hmem]
  · have ha : lex (List.replicate 257 '+') = Except.ok [Token.Increment 1] := by
      rw [lex_replicate_plus 257 (by omega) (by decide)]
    have hb : lex ['+'] = Except.ok [Token.Increment 1] := by
      rw [show (['+'] : List Char) = List.replicate 1 '+' from rfl,
        lex_replicate_plus 1 (by omega) (by decide)]
    rw [ha, hb]

/-- Witness for the identity part of C4 at a state whose cells hold 7. -/
theorem c4_coalesced_count_mod_256_witness :
    (cellState 7).memory (cellState 7).ptr < 256 ∧
    interpret_block 2 [Token.Increment 0] (cellState 7) = some (Except.ok (cellState 7)) :=
  ⟨by decide, c4_coalesced_count_mod_256.2.1 (cellState 7) (by decide)⟩

/-- Analyzing a lone `<` gives a single `Prev 1` token. -/
theorem lex_single_lt : lex ['<'] = Except.ok [Token.Prev 1] := by
  rw [lex_eq_of_slice _ [('<', 1)] (by decide)]
  simp [tokenize_block, charToken, optimize_block]

/-- Analyzing a lone `+` gives a single `Increment 1` token. -/
theorem lex_single_plus : lex ['+'] = Except.ok [Token.Increment 1] := by
  rw [lex_eq_of_slice _ [('+', 1)] (by decide)]
  simp [tokenize_block, charToken, optimize_block]

/-- The pointer after a single `Prev 1` step, exactly as the interpreter
computes it: `usize` wrapping subtraction, then `% HEAP_SIZE`. -/
def prevPtr (p : Nat) : Nat := (p + (USIZE - 1 % USIZE)) % USIZE % HEAP_SIZE

/-- A single `Prev 1` token only moves the pointer. -/
theorem interpret_prev1 (st : State) :
    interpret_block 2 [Token.Prev 1] st =
      some (Except.ok { st with ptr := prevPtr st.ptr }) := rfl

/-- One `<` symbol, analyzed and evaluated on its own, moves the pointer by
`prevPtr`. -/
theorem lexEvalEach_lt_cons (rest : List Char) (st : State) :
    lexEvalEach 2 ('<' :: rest) st = lexEvalEach 2 rest { st with ptr := prevPtr st.ptr } := by
  conv_lhs => unfold lexEvalEach
  simp only [lex_single_lt, interpret_prev1]

/-- Away from the bottom of the tape a `Prev 1` step is an exact
decrement. -/
theorem prevPtr_pos (p : Nat) (h1 : 0 < p) (h2 : p < HEAP_SIZE) : prevPtr p = p - 1 := by
  have hU : 1 ≤ USIZE := by decide
  have hHU : HEAP_SIZE < USIZE := by decide
  have e1 : 1 % USIZE = 1 := by decide
  unfold prevPtr
  rw [e1]
  have e2 : p + (USIZE - 1) = (p - 1) + USIZE := by omega
  rw [e2, Nat.add_mod_right, Nat.mod_eq_of_lt (show p - 1 < USIZE by omega)]
  exact Nat.mod_eq_of_lt (by omega)

/-- At pointer 0 a single `Prev 1` step lands on `2 ^ 64 % 30000 - 1 =
21615`, not 29999. -/
theorem prevPtr_zero : prevPtr 0 = 21615 := by decide

/-- Symbol-by-symbol evaluation of `k` `<` symbols when no wraparound
occurs: the pointer drops by exactly `k`. -/
theorem lexEvalEach_lt_run (k : Nat) : ∀ (st : State) (rest : List Char),
    k ≤ st.ptr → st.ptr < HEAP_SIZE →
    lexEvalEach 2 (List.replicate k '<' ++ rest) st =
      lexEvalEach 2 rest { st with ptr := st.ptr - k } := by
  induction k with
  | zero => intro st rest _ _; simp
  | succ k ih =>
    intro st rest hk hlt
    rw [List.replicate_succ, List.cons_append, lexEvalEach_lt_cons,
      prevPtr_pos st.ptr (by omega) hlt]
    rw [ih { st with ptr := st.ptr - 1 } rest (by simp; omega) (by simp; omega)]
    have e : st.ptr - 1 - k = st.ptr - (k + 1) := by omega
    simp [e]

/-- A single `Increment 1` token only bumps the current cell. -/
theorem interpret_inc1 (st : State) :
    interpret_block 2 [Token.Increment 1] st = some (Except.ok
      { st with memory := upd st.memory st.ptr ((st.memory st.ptr + 1 % 256) % 256) }) := rfl

/-- One `+` symbol, analyzed and evaluated on its own, bumps the current
cell. -/
theorem lexEvalEach_plus_cons (rest : List Char) (st : State) :
    lexEvalEach 2 ('+' :: rest) st = lexEvalEach 2 rest
      { st with memory := upd st.memory st.ptr ((st.memory st.ptr + 1 % 256) % 256) } := by
  conv_lhs => unfold lexEvalEach
  simp only [lex_single_plus, interpret_inc1]

/-- Decomposition of a run of 21617 `<` symbols: one wrap step, 21615
plain steps, one further wrap step. -/
theorem c3_split :
    List.replicate 21617 '<' ++ ['+'] = '<' :: (List.replicate 21615 '<' ++ ['<', '+']) := by
  rw [show (21617 : Nat) = 21616 + 1 from by norm_num, List.replicate_succ,
    show (21616 : Nat) = 21615 + 1 from by norm_num, List.replicate_add,
    List.cons_append, List.append_assoc, List.replicate_one, List.singleton_append]

/-- Symbol-by-symbol evaluation of 21617 `<` then one `+` from the initial
state: the pointer wraps to 21615, walks down to 0, wraps to 21615 again,
and the `+` marks cell 21615. -/
theorem c3_indiv_run :
    lexEvalEach 2 (List.replicate 21617 '<' ++ ['+']) (mkState []) =
      some (Except.ok { mkState [] with ptr := 21615, memory := upd (fun _ => 0) 21615 1 }) := by
  have h1 : ({ mkState [] with ptr := prevPtr (mkState []).ptr } : State) =
      { mkState [] with ptr := 21615 } := by
    rw [show prevPtr (mkState []).ptr = 21615 from by decide]
  have h2 : ({ ({ mkState [] with ptr := 21615 } : State) with
      ptr := ({ mkState [] with ptr := 21615 } : State).ptr - 21615 } : State) = mkState [] := by
    rw [show ({ mkState [] with ptr := 21615 } : State).ptr - 21615 = 0 from by decide]
    rfl
  rw [c3_split, lexEvalEach_lt_cons, h1,
    lexEvalEach_lt_run 21615 _ _ (by decide) (by decide), h2,
    show (['<', '+'] : List Char) = '<' :: ['+'] from rfl,
    lexEvalEach_lt_cons, h1, lexEvalEach_plus_cons]
  rfl

/-- Analysis of 21617 `<` then one `+`: run-length coalescing produces the
two tokens `Prev 21617` and `Increment 1`. -/
theorem lex_c3_src :
    lex (List.replicate 21617 '<' ++ ['+']) =
      Except.ok [Token.Prev 21617, Token.Increment 1] := by
  have hfilter : (List.replicate 21617 '<' ++ ['+']).filter (fun ch => !ch.isWhitespace) =
      List.replicate 21617 '<' ++ ['+'] := by
    rw [List.filter_eq_self]
    intro a ha
    rcases List.mem_append.mp ha with h | h
    · rw [List.eq_of_mem_replicate h]; decide
    · rw [List.mem_singleton.mp h]; decide
  have hslice : coalesce (((List.replicate 21617 '<' ++ ['+']).filter
      (fun ch => !ch.isWhitespace)).map (fun c => (c, 1))) = [('<', 21617), ('+', 1)] := by
    rw [hfilter, List.map_append, List.map_replicate]
    rw [show (21617 : Nat) = 21616 + 1 from by norm_num, List.replicate_succ, List.cons_append]
    show coalesce (('<', 1) :: (List.replicate 21616 ('<', 1) ++ [('+', 1)])) = _
    rw [coalesce]
    rw [coalesceAux_replicate '<' (by decide) 21616 1 (by norm_num [U32]) [('+', 1)]]
    simp [coalesceAux, repeatable]
  rw [lex_eq_of_slice _ [('<', 21617), ('+', 1)] hslice]
  simp [tokenize_block, charToken, optimize_block]

/-- C3. The claim says coalesced analysis-plus-evaluation agrees with
symbol-by-symbol analysis-plus-evaluation on every string of value/move
symbols.  On 21617 `<` followed by one `+` the two final tapes differ:
the coalesced run executes `Prev 21617`, whose `usize` wrapping subtraction
lands on cell 29999 (marking it 1, cell 21615 left 0), while executing the
21617 `<` one at a time wraps through `2 ^ 64 % 30000 - 1 = 21615` twice
and marks cell 21615 (cell 29999 left 0). -/
theorem c3_coalescing_divergence :
    lex (List.replicate 21617 '<' ++ ['+']) =
      Except.ok [Token.Prev 21617, Token.Increment 1] ∧
    finalMem (interpret_block 3 [Token.Prev 21617, Token.Increment 1] (mkState [])) 29999 =
      some 1 ∧
    finalMem (interpret_block 3 [Token.Prev 21617, Token.Increment 1] (mkState [])) 21615 =
      some 0 ∧
    finalMem (lexEvalEach 2 (List.replicate 21617 '<' ++ ['+']) (mkState [])) 21615 = some 1 ∧
    finalMem (lexEvalEach 2 (List.replicate 21617 '<' ++ ['+']) (mkState [])) 29999 = some 0 := by
  refine ⟨lex_c3_src, rfl, rfl, ?_, ?_⟩
  · rw [c3_indiv_run]; decide
  · rw [c3_indiv_run]; decide

/-- Fuel-indexed preservation: from a state whose input stream holds no
read errors, whose output sink accepts every write, and whose pointer is in
bounds, `interpret_block` can only finish successfully, in a state with the
same properties. -/
theorem interpret_block_good (fuel : Nat) : ∀ (block : List Token) (st : State)
    (r : Except RtError State),
    (∀ b ∈ st.inp, b ≠ InByte.err) → (∀ n, st.outOk n = true) → st.ptr < HEAP_SIZE →
    interpret_block fuel block st = some r →
    ∃ st', r = Except.ok st' ∧ (∀ b ∈ st'.inp, b ≠ InByte.err) ∧
      (∀ n, st'.outOk n = true) ∧ st'.ptr < HEAP_SIZE := by
  induction fuel with
  | zero => intro block st r _ _ _ h; simp [interpret_block] at h
  | succ fuel ih =>
    intro block st r hinp hout hptr hrun
    have hpos : 0 < HEAP_SIZE := by norm_num [HEAP_SIZE]
    cases block with
    | nil =>
      simp only [interpret_block, Option.some.injEq] at hrun
      exact ⟨st, hrun.symm, hinp, hout, hptr⟩
    | cons t rest =>
      cases t with
      | Increment x =>
        simp only [interpret_block] at hrun
        refine ih rest _ r ?_ ?_ ?_ hrun
        · exact hinp
        · exact hout
        · exact hptr
      | Decrement x =>
        simp only [interpret_block] at hrun
        refine ih rest _ r ?_ ?_ ?_ hrun
        · exact hinp
        · exact hout
        · exact hptr
      | Next c =>
        simp only [interpret_block] at hrun
        refine ih rest _ r ?_ ?_ ?_ hrun
        · exact hinp
        · exact hout
        · exact Nat.mod_lt _ hpos
      | Prev c =>
        simp only [interpret_block] at hrun
        refine ih rest _ r ?_ ?_ ?_ hrun
        · exact hinp
        · exact hout
        · exact Nat.mod_lt _ hpos
      | Print =>
        simp only [interpret_block, hout, if_true] at hrun
        refine ih rest _ r ?_ ?_ ?_ hrun
        · exact hinp
        · exact hout
        · exact hptr
      | Input =>
        cases hi : st.inp with
        | nil =>
          simp only [interpret_block, hi] at hrun
          refine ih rest _ r ?_ ?_ ?_ hrun
          · intro b hb; simp at hb
          · exact hout
          · exact hptr
        | cons b tl =>
          cases b with
          | ok v =>
            simp only [interpret_block, hi] at hrun
            refine ih rest _ r ?_ ?_ ?_ hrun
            · intro x hx
              refine hinp x ?_
              rw [hi]
              exact List.mem_cons_of_mem _ hx
            · exact hout
            · exact hptr
          | err =>
            refine absurd rfl (hinp InByte.err ?_)
            rw [hi]
            exact List.mem_cons_self _ _
      | Pattern p =>
        cases p with
        | SetToZero =>
          simp only [interpret_block] at hrun
          refine ih rest _ r ?_ ?_ ?_ hrun
          · exact hinp
          · exact hout
          · exact hptr
        | Multiply off factor =>
          simp only [interpret_block] at hrun
          refine ih rest _ r ?_ ?_ ?_ hrun
          · exact hinp
          · exact hout
          · exact hptr
      | Closure b =>
        by_cases hz : st.memory st.ptr = 0
        · simp only [interpret_block, hz, if_true] at hrun
          exact ih rest st r hinp hout hptr hrun
        · simp only [interpret_block, hz, if_false] at hrun
          cases hb : interpret_block fuel b st with
          | none => rw [hb] at hrun; simp at hrun
          | some res =>
            rw [hb] at hrun
            obtain ⟨st1, hres, hinp1, hout1, hptr1⟩ := ih b st res hinp hout hptr hb
            subst hres
            dsimp only at hrun
            cases hc : interpret_block fuel [Token.Closure b] st1 with
            | none => rw [hc] at hrun; simp at hrun
            | some res2 =>
              rw [hc] at hrun
              obtain ⟨st2, hres2, hinp2, hout2, hptr2⟩ :=
                ih [Token.Closure b] st1 res2 hinp1 hout1 hptr1 hc
              subst hres2
              dsimp only at hrun
              exact ih rest st2 r hinp2 hout2 hptr2 hrun

/-- C6 amended. An I/O failure on the output sink or the input source is
the only source of evaluator failure: when the output sink accepts every
write and the input stream holds no read errors, a terminating run (one
that returns within its fuel) always ends in `Except.ok`, with the pointer
still inside the 30000-cell tape — the tape, pointer and `Loop` logic never
fail. -/
theorem c6_only_io_failures (fuel : Nat) (block : List Token) (st : State)
    (r : Except RtError State)
    (hinp : ∀ b ∈ st.inp, b ≠ InByte.err) (hout : ∀ n, st.outOk n = true)
    (hptr : st.ptr < HEAP_SIZE)
    (hrun : interpret_block fuel block st = some r) :
    ∃ st', r = Except.ok st' ∧ st'.ptr < HEAP_SIZE := by
  obtain ⟨st', h1, _, _, h4⟩ := interpret_block_good fuel block st r hinp hout hptr hrun
  exact ⟨st', h1, h4⟩

/-- Witness for C6 amended: a one-`Print` program on perfect channels. -/
theorem c6_only_io_failures_witness :
    (∀ b ∈ (mkState []).inp, b ≠ InByte.err) ∧
    ∃ r, interpret_block 2 [Token.Print] (mkState []) = some r ∧
      ∃ st', r = Except.ok st' ∧ st'.ptr < HEAP_SIZE := by
  constructor
  · simp [mkState]
  · refine ⟨_, rfl, ?_⟩
    exact c6_only_io_failures 2 [Token.Print] (mkState []) _ (by simp [mkState])
      (fun n => rfl) (by decide) rfl

/-- No `Closure` node anywhere in the block has an empty body. -/
def noEmptyClosures : List Token → Bool
  | [] => true
  | Token.Closure bb :: rest => !bb.isEmpty && noEmptyClosures bb && noEmptyClosures rest
  | _ :: rest => noEmptyClosures rest

/-- `patternRewrite` never produces an empty closure: it yields a `Pattern`
token or returns the (non-empty) closure unchanged. -/
theorem noEmpty_patternRewrite (bb rest : List Token) (h1 : bb.isEmpty = false)
    (h2 : noEmptyClosures bb = true) (h3 : noEmptyClosures rest = true) :
    noEmptyClosures (patternRewrite (Token.Closure bb) :: rest) = true := by
  unfold patternRewrite
  split
  all_goals try split
  all_goals try split_ifs
  all_goals simp_all [noEmptyClosures]

/-- `optimize_block` never leaves an empty `Closure` at any depth. -/
theorem optimize_noEmpty (b : List Token) : noEmptyClosures (optimize_block b) = true := by
  induction b using optimize_block.induct with
  | case1 => simp [optimize_block, noEmptyClosures]
  | case2 bb rest ob hob ih1 ih2 =>
    rw [optimize_block]
    simp only [hob, if_true]
    exact ih2
  | case3 bb rest ob hob ih1 ih2 =>
    rw [optimize_block]
    simp only [hob, if_false]
    exact noEmpty_patternRewrite _ _ (by simpa using hob) ih1 ih2
  | case4 t rest hne ih =>
    cases t with
    | Closure bb => exact absurd rfl (hne bb)
    | Increment x => simpa [optimize_block, noEmptyClosures] using ih
    | Decrement x => simpa [optimize_block, noEmptyClosures] using ih
    | Next c => simpa [optimize_block, noEmptyClosures] using ih
    | Prev c => simpa [optimize_block, noEmptyClosures] using ih
    | Print => simpa [optimize_block, noEmptyClosures] using ih
    | Input => simpa [optimize_block, noEmptyClosures] using ih
    | Pattern p => simpa [optimize_block, noEmptyClosures] using ih

/-- C8. For every source string, a successful analysis returns a program
with no empty `Loop` body at any depth: `optimize_block` prunes them
(including loops whose bodies were only recursively empty loops) before
`lex` returns. -/
theorem c8_no_empty_loops (s : List Char) (b : List Token)
    (h : lex s = Except.ok b) : noEmptyClosures b = true := by
  simp only [lex] at h
  cases htok : tokenize_block
      (coalesce ((s.filter (fun ch => !ch.isWhitespace)).map (fun c => (c, 1)))) false with
  | error e => rw [htok] at h; simp at h
  | ok p =>
    obtain ⟨blk, rest⟩ := p
    rw [htok] at h
    simp only [Except.ok.injEq] at h
    rw [← h]
    exact optimize_noEmpty blk

/-- Witness for C8 on the one-character program `+`. -/
theorem c8_no_empty_loops_witness : noEmptyClosures [Token.Increment 1] = true :=
  c8_no_empty_loops ['+'] [Token.Increment 1] lex_single_plus

/-- The six non-bracket command characters `tokenize_block` accepts. -/
def commandChar (c : Char) : Bool :=
  c = '+' || c = '-' || c = '>' || c = '<' || c = '.' || c = ','

/-- `charToken` succeeds exactly on command characters, for any count. -/
theorem charToken_isSome (c : Char) (k : Nat) : (charToken c k).isSome = commandChar c := by
  unfold charToken commandChar
  split_ifs <;> simp_all

/-- Specification-side scanner: walk the coalesced stream left to right
with a loop-depth counter and report the first problem — a `]` at depth 0
(`SyntaxError ']'`), an unrecognized character (`SyntaxError c`), or
end-of-input at positive depth (`UnclosedBlock`); `none` when the stream is
well formed. -/
def scanErr : List (Char × Nat) → Nat → Option LexerError
  | [], 0 => none
  | [], _ + 1 => some LexerError.UnclosedBlock
  | (c, _) :: rest, d =>
    if c = ']' then
      match d with
      | 0 => some (LexerError.SyntaxError ']')
      | d' + 1 => scanErr rest d'
    else if c = '[' then scanErr rest (d + 1)
    else if commandChar c then scanErr rest d
    else some (LexerError.SyntaxError c)

/-- The error component of `tokenize_block`, `none` on success. -/
def tokErr (l : List (Char × Nat)) ( is_closure : Bool) : Option LexerError :=
  match tokenize_block l is_closure with
  | .error e => some e
  | .ok _ => none

/-- The recursive-descent `tokenize_block` agrees with the flat depth
scanner: at top level its error is exactly `scanErr` at depth 0, and inside
a closure an error is what the scanner reports one level deeper, while a
successful closure parse advances the scanner to its unconsumed suffix one
level shallower. -/
theorem tokenize_scan_nil :
    (tokErr [] false = scanErr [] 0) ∧
    (∀ d e, tokenize_block [] true = Except.error e → scanErr [] (d + 1) = some e) ∧
    (∀ d blk (r : { r : List (Char × Nat) // r.length ≤ ([] : List (Char × Nat)).length }),
      tokenize_block [] true = Except.ok (blk, r) → scanErr [] (d + 1) = scanErr r.1 d) := by
  refine ⟨by simp [tokErr, tokenize_block, scanErr], ?_, ?_⟩
  · intro d e he
    simp [tokenize_block] at he
    simp [scanErr, ← he]
  · intro d blk r hok
    simp [tokenize_block] at hok

theorem tokenize_scan : ∀ (n : Nat) (l : List (Char × Nat)), l.length ≤ n →
    (tokErr l false = scanErr l 0) ∧
    (∀ d e, tokenize_block l true = Except.error e → scanErr l (d + 1) = some e) ∧
    (∀ (d : Nat) (blk : List Token) (r : List (Char × Nat)) (hlen : r.length ≤ l.length),
      tokenize_block l true = Except.ok (blk, ⟨r, hlen⟩) → scanErr l (d + 1) = scanErr r d) := by
  intro n
  induction n with
  | zero =>
    intro l hl
    have hnil : l = [] := List.eq_nil_of_length_eq_zero (Nat.le_zero.mp hl)
    subst hnil
    refine ⟨by simp [tokErr, tokenize_block, scanErr], ?_, ?_⟩
    · intro d e he
      simp [tokenize_block] at he
      simp [scanErr, ← he]
    · intro d blk r hlen hok
      simp [tokenize_block] at hok
  | succ n ih =>
    intro l hl
    cases l with
    | nil =>
      refine ⟨by simp [tokErr, tokenize_block, scanErr], ?_, ?_⟩
      · intro d e he
        simp [tokenize_block] at he
        simp [scanErr, ← he]
      · intro d blk r hlen hok
        simp [tokenize_block] at hok
    | cons p rest =>
      obtain ⟨c, cnt⟩ := p
      have hrest : rest.length ≤ n := by
        simp only [List.length_cons] at hl
        omega
      by_cases hc1 : c = ']'
      · subst hc1
        refine ⟨by simp [tokErr, tokenize_block, scanErr], ?_, ?_⟩
        · intro d e he
          simp [tokenize_block] at he
        · intro d blk r hlen hok
          simp [tokenize_block] at hok
          obtain ⟨hblk, hr⟩ := hok
          simp [scanErr, hr]
      · by_cases hc2 : c = '['
        · subst hc2
          cases hinner : tokenize_block rest true with
          | error e =>
            have hscan0 : ∀ d, scanErr (('[', cnt) :: rest) d = scanErr rest (d + 1) := by
              intro d
              simp [scanErr]
            refine ⟨?_, ?_, ?_⟩
            · rw [hscan0 0]
              simp only [tokErr, tokenize_block, hinner]
              exact ((ih rest hrest).2.1 0 e hinner).symm
            · intro d e' he'
              simp [tokenize_block, hinner] at he'
              rw [hscan0 (d + 1), ← he']
              exact (ih rest hrest).2.1 (d + 1) e hinner
            · intro d blk r hlen hok
              simp [tokenize_block, hinner] at hok
          | ok pr =>
            obtain ⟨inner, r1⟩ := pr
            obtain ⟨rest1, hb1⟩ := r1
            have hrest1 : rest1.length ≤ n := le_trans hb1 hrest
            have hscan0 : ∀ d, scanErr (('[', cnt) :: rest) d = scanErr rest (d + 1) := by
              intro d
              simp [scanErr]
            have hstep : ∀ d, scanErr rest (d + 1) = scanErr rest1 d :=
              fun d => (ih rest hrest).2.2 d inner rest1 hb1 hinner
            refine ⟨?_, ?_, ?_⟩
            · rw [hscan0 0, hstep 0]
              simp only [tokErr, tokenize_block, hinner]
              have h1 := (ih rest1 hrest1).1
              simp only [tokErr] at h1
              cases hcont : tokenize_block rest1 false with
              | error e => rw [hcont] at h1; simpa using h1
              | ok pr2 => rw [hcont] at h1; simpa using h1
            · intro d e' he'
              rw [hscan0 (d + 1), hstep (d + 1)]
              cases hcont : tokenize_block rest1 true with
              | error e2 =>
                simp [tokenize_block, hinner, hcont] at he'
                rw [← he']
                exact (ih rest1 hrest1).2.1 d e2 hcont
              | ok pr2 =>
                simp [tokenize_block, hinner, hcont] at he'
            · intro d blk r hlen hok
              rw [hscan0 (d + 1), hstep (d + 1)]
              cases hcont : tokenize_block rest1 true with
              | error e2 =>
                simp [tokenize_block, hinner, hcont] at hok
              | ok pr2 =>
                obtain ⟨blk2, r2⟩ := pr2
                obtain ⟨rest2, hb2⟩ := r2
                simp [tokenize_block, hinner, hcont] at hok
                obtain ⟨hblk, hr⟩ := hok
                rw [← hr]
                exact (ih rest1 hrest1).2.2 d blk2 rest2 hb2 hcont
        · by_cases hc3 : commandChar c = true
          · obtain ⟨t, ht⟩ : ∃ t, charToken c cnt = some t := by
              rw [← Option.isSome_iff_exists, charToken_isSome]
              exact hc3
            have hscan : ∀ d, scanErr ((c, cnt) :: rest) d = scanErr rest d := by
              intro d
              simp [scanErr, hc1, hc2, hc3]
            refine ⟨?_, ?_, ?_⟩
            · rw [hscan 0]
              simp only [tokErr, tokenize_block, if_neg hc1, if_neg hc2, ht]
              have h1 := (ih rest hrest).1
              simp only [tokErr] at h1
              cases hcont : tokenize_block rest false with
              | error e => rw [hcont] at h1; simpa using h1
              | ok pr2 => rw [hcont] at h1; simpa using h1
            · intro d e he
              rw [hscan (d + 1)]
              cases hcont : tokenize_block rest true with
              | error e2 =>
                simp [tokenize_block, hc1, hc2, ht, hcont] at he
                rw [← he]
                exact (ih rest hrest).2.1 d e2 hcont
              | ok pr2 =>
                simp [tokenize_block, hc1, hc2, ht, hcont] at he
            · intro d blk r hlen hok
              rw [hscan (d + 1)]
              cases hcont : tokenize_block rest true with
              | error e2 =>
                simp [tokenize_block, hc1, hc2, ht, hcont] at hok
              | ok pr2 =>
                obtain ⟨blk2, r2⟩ := pr2
                obtain ⟨rest2, hb2⟩ := r2
                simp [tokenize_block, hc1, hc2, ht, hcont] at hok
                obtain ⟨hblk, hr⟩ := hok
                rw [← hr]
                exact (ih rest hrest).2.2 d blk2 rest2 hb2 hcont
          · have hnone : charToken c cnt = none := by
              cases hct : charToken c cnt with
              | none => rfl
              | some t =>
                exfalso
                apply hc3
                rw [← charToken_isSome c cnt, hct]
                rfl
            have hscan : ∀ d, scanErr ((c, cnt) :: rest) d = some (LexerError.SyntaxError c) := by
              intro d
              simp [scanErr, hc1, hc2, hc3]
            refine ⟨?_, ?_, ?_⟩
            · rw [hscan 0]
              simp [tokErr, tokenize_block, hc1, hc2, hnone]
            · intro d e he
              rw [hscan (d + 1)]
              simp [tokenize_block, hc1, hc2, hnone] at he
              rw [he]
            · intro d blk r hlen hok
              simp [tokenize_block, hc1, hc2, hnone] at hok

/-- The coalesced symbol stream `lex` feeds to `tokenize_block`. -/
def streamOf (s : List Char) : List (Char × Nat) :=
  coalesce ((s.filter (fun ch => !ch.isWhitespace)).map (fun c => (c, 1)))

/-- The error component of `lex`, `none` on success. -/
def lexErr (s : List Char) : Option LexerError :=
  match lex s with
  | .error e => some e
  | .ok _ => none

/-- The analysis error of `lex` is exactly the first problem the depth
scanner finds in the filtered, coalesced stream. -/
theorem lexErr_eq_scanErr (s : List Char) : lexErr s = scanErr (streamOf s) 0 := by
  unfold lexErr streamOf
  simp only [lex]
  have h := (tokenize_scan (coalesce ((s.filter (fun ch => !ch.isWhitespace)).map
    (fun c => (c, 1)))).length _ le_rfl).1
  simp only [tokErr] at h
  cases htok : tokenize_block (coalesce ((s.filter (fun ch => !ch.isWhitespace)).map
      (fun c => (c, 1)))) false with
  | error e =>
    rw [htok] at h
    simp [htok, ← h]
  | ok pr =>
    rw [htok] at h
    simp [htok, ← h]

/-- The depth scanner only ever reports `UnclosedBlock` or
`SyntaxError c`. -/
theorem scanErr_range : ∀ (l : List (Char × Nat)) (d : Nat) (e : LexerError),
    scanErr l d = some e →
    e = LexerError.UnclosedBlock ∨ ∃ c, e = LexerError.SyntaxError c := by
  intro l
  induction l with
  | nil =>
    intro d e h
    cases d with
    | zero => simp [scanErr] at h
    | succ d =>
      simp [scanErr] at h
      exact Or.inl h.symm
  | cons p rest ih =>
    obtain ⟨c, cnt⟩ := p
    intro d e h
    by_cases hc1 : c = ']'
    · subst hc1
      cases d with
      | zero =>
        simp [scanErr] at h
        exact Or.inr ⟨']', h.symm⟩
      | succ d =>
        simp [scanErr] at h
        exact ih d e h
    · by_cases hc2 : c = '['
      · subst hc2
        simp [scanErr] at h
        exact ih (d + 1) e h
      · by_cases hc3 : commandChar c = true
        · simp [scanErr, hc1, hc2, hc3] at h
          exact ih d e h
        · simp [scanErr, hc1, hc2, hc3] at h
          exact Or.inr ⟨c, h.symm⟩

/-- Net loop depth of a raw source string (unmatched `]` truncated at 0):
a positive final value means some `[` is never closed. -/
def openDepth (s : List Char) : Nat :=
  s.foldl (fun d c => if c = '[' then d + 1 else if c = ']' then d - 1 else d) 0

/-- C9 counterexample. The claim says a source with a `[` that has no
matching `]` before end-of-input yields `UnclosedBlock`.  The source `][`
has such a `[` (its net open depth is positive), yet analysis returns
`SyntaxError(']')`, because the unmatched `]` is hit first. -/
theorem c9_counterexample :
    openDepth [']', '['] ≠ 0 ∧
    lex [']', '['] = Except.error (LexerError.SyntaxError ']') ∧
    LexerError.SyntaxError ']' ≠ LexerError.UnclosedBlock := by
  refine ⟨by decide, ?_, by decide⟩
  rw [lex_eq_of_slice _ [(']', 1), ('[', 1)] (by decide)]
  simp [tokenize_block]

/-- C9 amended. The analysis error is exactly determined by a left-to-right
depth scan of the whitespace-filtered, coalesced stream — the first problem
wins: a `]` at depth 0 yields `SyntaxError(']')`, an unrecognized character
yields `SyntaxError(c)`, and end-of-input at positive depth yields
`UnclosedBlock`.  In particular an unmatched `]` with no earlier problem
yields `SyntaxError(']')` and an unclosed `[` with no earlier problem
yields `UnclosedBlock`; no partial program accompanies an error. -/
theorem c9_scan_characterization (s : List Char) (e : LexerError) :
    lex s = Except.error e ↔ scanErr (streamOf s) 0 = some e := by
  have h := lexErr_eq_scanErr s
  unfold lexErr at h
  constructor
  · intro hl
    rw [hl] at h
    exact h.symm
  · intro hs
    cases hl : lex s with
    | error e' =>
      rw [hl] at h
      rw [← h] at hs
      simp at hs
      rw [hs]
    | ok b =>
      rw [hl] at h
      rw [← h] at hs
      simp at hs

/-- C10. `lex` never returns `UnexpectedEOF`: every analysis error is
`UnclosedBlock` or a `SyntaxError`. -/
theorem c10_no_unexpected_eof (s : List Char) (e : LexerError)
    (h : lex s = Except.error e) :
    e = LexerError.UnclosedBlock ∨ ∃ c, e = LexerError.SyntaxError c := by
  have heq := lexErr_eq_scanErr s
  unfold lexErr at heq
  rw [h] at heq
  exact scanErr_range (streamOf s) 0 e heq.symm

/-- Witness for C10 on the source `]`. -/
theorem c10_no_unexpected_eof_witness :
    LexerError.SyntaxError ']' = LexerError.UnclosedBlock ∨
      ∃ c, LexerError.SyntaxError ']' = LexerError.SyntaxError c :=
  c10_no_unexpected_eof [']'] (LexerError.SyntaxError ']')
    (by rw [lex_eq_of_slice _ [(']', 1)] (by decide)]; simp [tokenize_block])
